import Mathlib

/-!
Verification development for the remote-file-system client
(crates rfs-models, rfs-cache, rfs-api, rfs-fuse, rfs-winfsp).

Shallow embedding conventions:
* `u64`/`usize` are modelled as `Nat` (no wraparound is exercised by the
  modelled code paths; Rust `saturating_sub` coincides with `Nat` subtraction).
* `SystemTime` is modelled as `Nat` (milliseconds since the epoch).
* `Vec<u8>` is modelled as `List Nat`.
* `lru::LruCache` is modelled as an association list in recency order
  (most recently used first).  `get`/`get_mut` promote the entry to the
  front, `peek` does not, `put` inserts or replaces at the front, `pop`
  removes.  Capacity-based eviction is not modelled (capacities are treated
  as unbounded); the claims under study concern the caching logic, not the
  eviction policy, and are stated in terms of lookups.
* The remote backend is modelled as a record of pure response functions;
  each cache operation additionally returns the list of backend calls it
  made, in order.
-/

/-- rfs-models: `pub const BLOCK_SIZE: usize = 16 * 1024;` -/
def BLOCK_SIZE : Nat := 16 * 1024

/-- rfs-models: `enum EntryType { File, Directory, Symlink }`. -/
inductive EntryType where
  | File
  | Directory
  | Symlink
deriving DecidableEq, Repr

/-- rfs-models: `struct FileEntry` (times as milliseconds since the epoch). -/
structure FileEntry where
  ino : Nat
  name : String
  path : String
  kind : EntryType
  size : Nat
  perms : Nat
  uid : Nat
  gid : Nat
  atime : Nat
  mtime : Nat
  ctime : Nat
  btime : Nat
  nlinks : Nat
deriving DecidableEq, Repr

/-- rfs-models: `struct SetAttrRequest` with optional fields. -/
structure SetAttrRequest where
  perm : Option Nat
  uid : Option Nat
  gid : Option Nat
  size : Option Nat
  flags : Option Nat
deriving DecidableEq, Repr

/-- rfs-models: `enum BackendError`. -/
inductive BackendError where
  | NotFound (msg : String)
  | Unauthorized
  | Conflict (msg : String)
  | Forbidden
  | InternalServerError
  | BadAnswerFormat
  | ServerUnreachable
  | Other (msg : String)
deriving DecidableEq, Repr

/-! ## Association-list model of `lru::LruCache` -/

/-- `LruCache::peek` / plain lookup: first value stored under key `k`. -/
def alLookup {K V : Type} [DecidableEq K] (k : K) : List (K × V) → Option V
  | [] => none
  | (k', v) :: rest => if k' = k then some v else alLookup k rest

/-- `LruCache::pop k`: remove the entry keyed `k`. -/
def alErase {K V : Type} [DecidableEq K] (k : K) : List (K × V) → List (K × V)
  | [] => []
  | (k', v) :: rest => if k' = k then alErase k rest else (k', v) :: alErase k rest

/-- `LruCache::put k v`: insert or replace, promoting to the front. -/
def alPut {K V : Type} [DecidableEq K] (k : K) (v : V) (l : List (K × V)) : List (K × V) :=
  (k, v) :: alErase k l

/-- `LruCache::get` / `get_mut`: look up and promote to the front. -/
def alGet {K V : Type} [DecidableEq K] (k : K) (l : List (K × V)) :
    Option (V × List (K × V)) :=
  match alLookup k l with
  | none => none
  | some v => some (v, (k, v) :: alErase k l)

/-! ## rfs-cache: path helpers -/

/-- rfs-cache: `block_index(offset) = offset / BLOCK_SIZE`. -/
def blockIndex (offset : Nat) : Nat := offset / BLOCK_SIZE

/-- rfs-cache: `block_start(idx) = idx * BLOCK_SIZE`. -/
def blockStart (idx : Nat) : Nat := idx * BLOCK_SIZE

/-- rfs-cache: `blocks_span(offset, len) = (block_index(offset),
    block_index(offset + len.saturating_sub(1)))`. -/
def blocksSpan (offset len : Nat) : Nat × Nat :=
  (blockIndex offset, blockIndex (offset + (len - 1)))

/-- Drop the trailing run of non-separator characters of a reversed
    character list. -/
def skipNonSlash : List Char → List Char
  | [] => []
  | c :: rest => if c = '/' then c :: rest else skipNonSlash rest

/-- Drop the trailing run of separator characters of a reversed
    character list. -/
def skipSlash : List Char → List Char
  | [] => []
  | c :: rest => if c = '/' then skipSlash rest else c :: rest

/-- rfs-cache: `get_parent_str`, a model of Rust
    `Path::new(path).parent().and_then(|p| p.to_str())` for canonical
    slash-separated paths: none for `""` and `"/"`, otherwise the path with
    its last component removed (`"/a"` gives `"/"`, `"a"` gives `""`). -/
def getParentStr (path : String) : Option String :=
  if path = "" ∨ path = "/" then none
  else if skipNonSlash path.toList.reverse = ['/'] then some "/"
  else some (String.mk (skipSlash (skipNonSlash path.toList.reverse)).reverse)

/-- rfs-cache: `is_under_prefix(path, pre)`, a model of Rust
    `Path::new(path).starts_with(Path::new(pre))` for canonical paths:
    component-wise prefix. -/
def isUnder (path pre : String) : Bool :=
  path = pre
  || (pre = "/" && List.isPrefixOf ['/'] path.toList)
  || List.isPrefixOf (pre.toList ++ ['/']) path.toList

/-! ## rfs-cache: cache state, backend model, call traces -/

/-- The three cache tiers of rfs-cache `Cache` (association lists in
    recency order, see the `LruCache` model above). -/
structure CacheState where
  attr : List (String × FileEntry)
  dir : List (String × List String)
  blocks : List (String × List (Nat × List Nat))
deriving DecidableEq, Repr

/-- The remote backend, modelled as a record of pure response functions
    (the cache treats it as an opaque `RemoteBackend`). -/
structure Backend where
  list_dir : String → Except BackendError (List FileEntry)
  get_attr : String → Except BackendError FileEntry
  get_attr_if_modified_since : String → Nat → Except BackendError (Option FileEntry)
  create_file : String → Except BackendError FileEntry
  create_dir : String → Except BackendError FileEntry
  delete_file : String → Except BackendError Unit
  delete_dir : String → Except BackendError Unit
  read_chunk : String → Nat → Nat → Except BackendError (List Nat)
  write_chunk : String → Nat → List Nat → Except BackendError Nat
  rename : String → String → Except BackendError FileEntry
  set_attr : String → SetAttrRequest → Except BackendError FileEntry

/-- One backend call made by the cache, with its arguments. -/
inductive BCall where
  | listDir (path : String)
  | getAttr (path : String)
  | getAttrIfModifiedSince (path : String) (mtime : Nat)
  | createFile (path : String)
  | createDir (path : String)
  | deleteFile (path : String)
  | deleteDir (path : String)
  | readChunk (path : String) (offset size : Nat)
  | writeChunk (path : String) (offset : Nat) (data : List Nat)
  | rename (oldPath newPath : String)
  | setAttr (path : String) (attrs : SetAttrRequest)
deriving DecidableEq, Repr

/-- Result of a cache operation: the returned value, the new cache state,
    and the backend calls made (in order). -/
abbrev CResult (α : Type) := Except BackendError α × CacheState × List BCall

/-- Content lookup in the per-file block tier: the cached bytes of block
    `idx` of file `path`, if any. -/
def innerLookup (st : CacheState) (path : String) (idx : Nat) : Option (List Nat) :=
  match alLookup path st.blocks with
  | some fc => alLookup idx fc
  | none => none

/-! ## rfs-cache: private helpers of `Cache` -/

/-- rfs-cache `Cache::invalidate_attr_and_parent`. -/
def invalidateAttrAndParent (st : CacheState) (path : String) : CacheState :=
  let st1 := { st with attr := alErase path st.attr }
  match getParentStr path with
  | some parent => { st1 with attr := alErase parent st1.attr, dir := alErase parent st1.dir }
  | none => st1

/-- rfs-cache `Cache::invalidate_all_under_prefix`. -/
def invalidateAllUnder (st : CacheState) (pre : String) : CacheState :=
  { attr := st.attr.filter (fun p => ! isUnder p.1 pre),
    dir := st.dir.filter (fun p => ! isUnder p.1 pre),
    blocks := st.blocks.filter (fun p => ! isUnder p.1 pre) }

/-- Membership test of a block index in the optional range `[lo, hi]` used by
    `Cache::invalidate_blocks_for`. -/
def inIdxRange (idx : Nat) : Option Nat → Option Nat → Bool
  | some a, some b => decide (a ≤ idx ∧ idx ≤ b)
  | some a, none => decide (a ≤ idx)
  | none, some b => decide (idx ≤ b)
  | none, none => true

/-- rfs-cache `Cache::invalidate_blocks_for` (`get_mut` promotes the file
    in the outer tier; if the inner cache becomes empty the file entry is
    removed). -/
def invalidateBlocksFor (st : CacheState) (path : String) (lo hi : Option Nat) : CacheState :=
  match alGet path st.blocks with
  | none => st
  | some (fc, blocksP) =>
      let fc' := fc.filter (fun p => ! inIdxRange p.1 lo hi)
      if fc'.isEmpty then { st with blocks := alErase path blocksP }
      else { st with blocks := alPut path fc' blocksP }

/-- rfs-cache `Cache::put_attr_and_invalidate_parent`. -/
def putAttrAndInvalidateParent (st : CacheState) (path : String) (e : FileEntry) : CacheState :=
  let st1 := { st with attr := alPut path e st.attr }
  match getParentStr path with
  | some parent => { st1 with attr := alErase parent st1.attr, dir := alErase parent st1.dir }
  | none => st1

/-- rfs-cache `Cache::put_dir_listing`: store the child list and the
    children's attributes. -/
def putDirListing (st : CacheState) (dir : String) (entries : List FileEntry) : CacheState :=
  let children := entries.map (fun e => e.path)
  let st1 := { st with dir := alPut dir children st.dir }
  entries.foldl (fun s e => { s with attr := alPut e.path e s.attr }) st1

/-- Inner loop of `Cache::list_dir_from_cache`: gather the children's cached
    attributes (each `attr_cache.get` promotes); stop at the first miss. -/
def collectChildren (st : CacheState) (acc : List FileEntry) :
    List String → Option (List FileEntry) × CacheState
  | [] => (some acc.reverse, st)
  | c :: rest =>
      match alGet c st.attr with
      | some (e, attrP) => collectChildren { st with attr := attrP } (e :: acc) rest
      | none => (none, st)

/-- rfs-cache `Cache::list_dir_from_cache`: on a partial hit the stale
    listing is evicted before returning `none`. -/
def listDirFromCache (st : CacheState) (dir : String) :
    Option (List FileEntry) × CacheState :=
  match alGet dir st.dir with
  | none => (none, st)
  | some (children, dirP) =>
      let st1 := { st with dir := dirP }
      match collectChildren st1 [] children with
      | (some entries, st2) => (some entries, st2)
      | (none, st2) => (none, { st2 with dir := alErase dir st2.dir })

/-- The initial `block_cache.get_mut(path)` probe of
    `Cache::fetch_block_if_missing`: it promotes the file's entry in the
    outer tier whether or not the block is present. -/
def fetchPromote (st : CacheState) (path : String) : CacheState :=
  match alGet path st.blocks with
  | some (_, blocksP) => { st with blocks := blocksP }
  | none => st

/-- rfs-cache `Cache::fetch_block_if_missing`: peek, fetch the aligned whole
    block on a miss, insert, and mark the following block empty after a short
    fetch (only if that index is absent). -/
def fetchBlockIfMissing (b : Backend) (st : CacheState) (path : String) (idx : Nat) :
    Except BackendError Unit × CacheState × List BCall :=
  let st0 := fetchPromote st path
  if (innerLookup st0 path idx).isSome then (Except.ok (), st0, [])
  else
    match b.read_chunk path (blockStart idx) BLOCK_SIZE with
    | Except.error e => (Except.error e, st0, [BCall.readChunk path (blockStart idx) BLOCK_SIZE])
    | Except.ok data =>
        let fc0 := (alLookup path st0.blocks).getD []
        let fc1 := alPut idx data fc0
        let fc2 :=
          if data.length < BLOCK_SIZE ∧ alLookup (idx + 1) fc1 = none then
            alPut (idx + 1) ([] : List Nat) fc1
          else fc1
        (Except.ok (), { st0 with blocks := alPut path fc2 st0.blocks },
          [BCall.readChunk path (blockStart idx) BLOCK_SIZE])

/-! ## rfs-cache: the `RemoteBackend` implementation of `Cache` -/

/-- rfs-cache `Cache::list_dir`. -/
def Cache.list_dir (b : Backend) (st : CacheState) (path : String) :
    CResult (List FileEntry) :=
  match listDirFromCache st path with
  | (some entries, st1) => (Except.ok entries, st1, [])
  | (none, st1) =>
      match b.list_dir path with
      | Except.ok fresh => (Except.ok fresh, putDirListing st1 path fresh, [BCall.listDir path])
      | Except.error e => (Except.error e, st1, [BCall.listDir path])

/-- rfs-cache `Cache::get_attr`: conditional revalidation of a cached entry
    against its `mtime`; unconditional fetch on a miss. -/
def Cache.get_attr (b : Backend) (st : CacheState) (path : String) :
    CResult FileEntry :=
  match alGet path st.attr with
  | some (cached, attrP) =>
      let st1 := { st with attr := attrP }
      match b.get_attr_if_modified_since path cached.mtime with
      | Except.ok (some updated) =>
          let st2 := invalidateBlocksFor st1 path none none
          let st3 := putAttrAndInvalidateParent st2 path updated
          (Except.ok updated, st3, [BCall.getAttrIfModifiedSince path cached.mtime])
      | Except.ok none =>
          (Except.ok cached, st1, [BCall.getAttrIfModifiedSince path cached.mtime])
      | Except.error e =>
          (Except.error e, st1, [BCall.getAttrIfModifiedSince path cached.mtime])
  | none =>
      match b.get_attr path with
      | Except.ok fresh =>
          (Except.ok fresh, putAttrAndInvalidateParent st path fresh, [BCall.getAttr path])
      | Except.error e => (Except.error e, st, [BCall.getAttr path])

/-- rfs-cache `Cache::create_file`. -/
def Cache.create_file (b : Backend) (st : CacheState) (path : String) :
    CResult FileEntry :=
  match b.create_file path with
  | Except.ok entry =>
      (Except.ok entry, putAttrAndInvalidateParent st path entry, [BCall.createFile path])
  | Except.error e => (Except.error e, st, [BCall.createFile path])

/-- rfs-cache `Cache::create_dir`. -/
def Cache.create_dir (b : Backend) (st : CacheState) (path : String) :
    CResult FileEntry :=
  match b.create_dir path with
  | Except.ok entry =>
      (Except.ok entry, putAttrAndInvalidateParent st path entry, [BCall.createDir path])
  | Except.error e => (Except.error e, st, [BCall.createDir path])

/-- rfs-cache `Cache::delete_file`. -/
def Cache.delete_file (b : Backend) (st : CacheState) (path : String) :
    CResult Unit :=
  match b.delete_file path with
  | Except.ok _ =>
      let st1 := invalidateBlocksFor st path none none
      (Except.ok (), invalidateAttrAndParent st1 path, [BCall.deleteFile path])
  | Except.error e => (Except.error e, st, [BCall.deleteFile path])

/-- rfs-cache `Cache::delete_dir`. -/
def Cache.delete_dir (b : Backend) (st : CacheState) (path : String) :
    CResult Unit :=
  match b.delete_dir path with
  | Except.ok _ =>
      let st1 := invalidateAllUnder st path
      (Except.ok (), invalidateAttrAndParent st1 path, [BCall.deleteDir path])
  | Except.error e => (Except.error e, st, [BCall.deleteDir path])

/-- The per-block loop of rfs-cache `Cache::read_chunk`.  For each index:
    fetch the block if missing, then read it back from the cache (`get_mut`
    and `get` promote); an empty block means EOF and stops the assembly;
    otherwise the requested subrange of the block is appended, clamped by
    `remaining`, and the loop stops once `remaining` hits zero. -/
def readChunkLoop (b : Backend) (path : String) (offset reqEnd : Nat) :
    List Nat → CacheState → List Nat → Nat → List BCall →
    Except BackendError (List Nat) × CacheState × List BCall
  | [], st, out, _, trace => (Except.ok out, st, trace)
  | idx :: rest, st, out, remaining, trace =>
      match fetchBlockIfMissing b st path idx with
      | (Except.error e, st1, tr) => (Except.error e, st1, trace ++ tr)
      | (Except.ok _, st1, tr) =>
          let trace1 := trace ++ tr
          match alGet path st1.blocks with
          | none => (Except.error (BackendError.Other "cache invariant broken"), st1, trace1)
          | some (fc, blocksP) =>
              match alGet idx fc with
              | none =>
                  (Except.error (BackendError.Other "cache invariant broken"),
                    { st1 with blocks := blocksP }, trace1)
              | some (blk, fcP) =>
                  let st2 := { st1 with blocks := alPut path fcP blocksP }
                  if blk.isEmpty then (Except.ok out, st2, trace1)
                  else
                    let blockOff := blockStart idx
                    let startInBlock := offset - blockOff
                    let endInBlock := min (reqEnd - blockOff) blk.length
                    let want := endInBlock - startInBlock
                    let take := min want remaining
                    let out1 := out ++ (blk.drop startInBlock).take take
                    let remaining1 := remaining - take
                    if remaining1 = 0 then (Except.ok out1, st2, trace1)
                    else readChunkLoop b path offset reqEnd rest st2 out1 remaining1 trace1

/-- rfs-cache `Cache::read_chunk`. -/
def Cache.read_chunk (b : Backend) (st : CacheState) (path : String)
    (offset size : Nat) : CResult (List Nat) :=
  if size = 0 then (Except.ok [], st, [])
  else
    let span := blocksSpan offset size
    readChunkLoop b path offset (offset + size)
      (List.range' span.1 (span.2 + 1 - span.1)) st [] size []

/-- rfs-cache `Cache::write_chunk`: delegate; on success with `n > 0`
    invalidate the covering block range; always evict the file's (and its
    parent's) metadata. -/
def Cache.write_chunk (b : Backend) (st : CacheState) (path : String)
    (offset : Nat) (data : List Nat) : CResult Nat :=
  match b.write_chunk path offset data with
  | Except.ok n =>
      let st1 :=
        if n > 0 then
          let span := blocksSpan offset n
          invalidateBlocksFor st path (some span.1) (some span.2)
        else st
      (Except.ok n, invalidateAttrAndParent st1 path, [BCall.writeChunk path offset data])
  | Except.error e => (Except.error e, st, [BCall.writeChunk path offset data])

/-- rfs-cache `Cache::rename`. -/
def Cache.rename (b : Backend) (st : CacheState) (oldPath newPath : String) :
    CResult FileEntry :=
  match b.rename oldPath newPath with
  | Except.ok entry =>
      let st1 := invalidateAllUnder st oldPath
      let st2 := invalidateAttrAndParent st1 oldPath
      (Except.ok entry, putAttrAndInvalidateParent st2 newPath entry,
        [BCall.rename oldPath newPath])
  | Except.error e => (Except.error e, st, [BCall.rename oldPath newPath])

/-- rfs-cache `Cache::set_attr`. -/
def Cache.set_attr (b : Backend) (st : CacheState) (path : String)
    (attrs : SetAttrRequest) : CResult FileEntry :=
  match b.set_attr path attrs with
  | Except.ok entry =>
      let st1 := putAttrAndInvalidateParent st path entry
      let st2 :=
        match attrs.size with
        | some newSize => invalidateBlocksFor st1 path (some (blockIndex newSize)) none
        | none => st1
      (Except.ok entry, st2, [BCall.setAttr path attrs])
  | Except.error e => (Except.error e, st, [BCall.setAttr path attrs])

/-! ## rfs-api: the request/retry discipline of `HttpBackend`

`HttpBackend::request` and `HttpBackend::request_no_response` (and the inline
copy in `read_stream`) run a loop guarded by a `token_expired` flag: the flag
starts false, is set on the first 401 after a successful `authenticate()`, and
a second 401 returns `Unauthorized`; every other status exits the loop at
once.  The loop therefore performs at most two sends and is embedded here in
its unrolled form: `r1` is the first response, `r2` the response to the
(at most one) retried send, `authRes` the outcome of `authenticate()`. -/

/-- Outcome of one HTTP send, as discriminated by the `match resp.status()`
    in rfs-api.  A 200 carries the body-parse outcome (`Ok` payload or
    `BadAnswerFormat`). -/
inductive HttpResp (α : Type) where
  | ok (payload : Except BackendError α)
  | unauthorized
  | forbidden
  | conflict (msg : String)
  | other

/-- Observable actions of `HttpBackend::request`: an HTTP send of the
    request, or a silent re-login with the retained credentials. -/
inductive ReqEvent where
  | send
  | auth
deriving DecidableEq, Repr

/-- The non-retrying arms of the status match (`token_expired` already set
    for the 401 arm). -/
def handleNon401 {α : Type} : HttpResp α → Except BackendError α
  | HttpResp.ok p => p
  | HttpResp.unauthorized => Except.error BackendError.Unauthorized
  | HttpResp.forbidden => Except.error BackendError.Forbidden
  | HttpResp.conflict m => Except.error (BackendError.Conflict m)
  | HttpResp.other => Except.error (BackendError.Other "Unexpected error")

/-- rfs-api `HttpBackend::request` (and `request_no_response`): the
    `token_expired` loop, unrolled.  Returns the result and the ordered list
    of observable actions. -/
def httpRequest {α : Type} (r1 r2 : HttpResp α) (authRes : Except BackendError Unit) :
    Except BackendError α × List ReqEvent :=
  match r1 with
  | HttpResp.unauthorized =>
      match authRes with
      | Except.error e => (Except.error e, [ReqEvent.send, ReqEvent.auth])
      | Except.ok _ => (handleNon401 r2, [ReqEvent.send, ReqEvent.auth, ReqEvent.send])
  | HttpResp.ok p => (handleNon401 (HttpResp.ok p), [ReqEvent.send])
  | HttpResp.forbidden => (handleNon401 (HttpResp.forbidden : HttpResp α), [ReqEvent.send])
  | HttpResp.conflict m => (handleNon401 (HttpResp.conflict m : HttpResp α), [ReqEvent.send])
  | HttpResp.other => (handleNon401 (HttpResp.other : HttpResp α), [ReqEvent.send])

/-! ## rfs-winfsp and rfs-fuse: write buffering and flushing -/

/-- Both adapters: `const LARGE_FILE_SIZE: u64 = 100 * 1024 * 1024;`. -/
def LARGE_FILE_SIZE : Nat := 100 * 1024 * 1024

/-- A backend write emitted by an adapter (`ι` is the file identity:
    `Nat` inode for rfs-winfsp, `String` path for rfs-fuse). -/
inductive WriteCall (ι : Type) where
  | chunk (target : ι) (off : Nat) (data : List Nat)
  | stream (target : ι) (off : Nat) (data : List Nat)
deriving DecidableEq, Repr

/-- rfs-winfsp `RemoteFS::flush_buffer`: emit nothing for an empty buffer,
    `write_stream` for a buffer over 100 MiB, `write_chunk` otherwise. -/
def flushBufferCalls (ino off : Nat) (buffer : List Nat) : List (WriteCall Nat) :=
  if buffer.isEmpty then []
  else if buffer.length > LARGE_FILE_SIZE then [WriteCall.stream ino off buffer]
  else [WriteCall.chunk ino off buffer]

/-- The walk of rfs-winfsp `RemoteFS::flush_file` over the drained
    `BTreeMap` entries, with the mutable locals `start_offset`,
    `last_offset`, `prev_block_size` and `buffer` made explicit. -/
def flushLoop (ino : Nat) :
    List (Nat × List Nat) → Nat → Nat → Nat → List Nat → List (WriteCall Nat)
  | [], startOffset, _, _, buffer => flushBufferCalls ino startOffset buffer
  | (off, data) :: rest, startOffset, lastOffset, prevLen, buffer =>
      if buffer.isEmpty then
        flushLoop ino rest off off data.length (buffer ++ data)
      else if lastOffset + prevLen = off then
        flushLoop ino rest startOffset off data.length (buffer ++ data)
      else
        flushBufferCalls ino startOffset buffer ++ flushLoop ino rest off off data.length data

/-- rfs-winfsp `RemoteFS::flush_file`: the buffered fragments are drained
    (the map is cleared before the walk) and each maximal coalesced run is
    written out; returns the emitted backend writes and the cleared map.
    Backend write failures abort the walk early; the emitted-call list
    models the successful path. -/
def winfspFlushFile (ino : Nat) (m : List (Nat × List Nat)) :
    List (WriteCall Nat) × List (Nat × List Nat) :=
  (flushLoop ino m 0 0 0 [], [])

/-- Modelled from the spec (section Write buffering): walk the fragments in
    order, coalescing a fragment into the current run exactly when its
    offset is the previous fragment's offset plus its length; on a gap the
    current run is closed and a new one started.  Returns the list of
    `(start, bytes)` runs. -/
def specRunsGo (start : Nat) (acc : List Nat) :
    List (Nat × List Nat) → List (Nat × List Nat)
  | [] => [(start, acc)]
  | (off, d) :: rest =>
      if start + acc.length = off then specRunsGo start (acc ++ d) rest
      else (start, acc) :: specRunsGo off d rest

/-- Modelled from the spec: the maximal contiguous runs of a fragment list. -/
def specRuns : List (Nat × List Nat) → List (Nat × List Nat)
  | [] => []
  | (off, d) :: rest => specRunsGo off d rest

/-- Emit one backend write per non-empty run (`write_stream` over 100 MiB,
    `write_chunk` otherwise). -/
def emitRuns (ino : Nat) (rs : List (Nat × List Nat)) : List (WriteCall Nat) :=
  rs.foldr (fun p acc => flushBufferCalls ino p.1 p.2 ++ acc) []

/-- rfs-winfsp `RemoteFS::write`: metadata-only handling for directories and
    empty buffers; otherwise the data is sent to the backend immediately
    (`write_stream` over 100 MiB, `write_chunk` otherwise) and, on success,
    the handle's entry snapshot gets the extended size and a fresh `mtime`
    and the full length is reported.  `wres` is the backend call's outcome,
    `now` the current time; the result is `some reported_length` on a
    successful reply and `none` on an error reply. -/
def winfspWrite (entry : FileEntry) (data : List Nat) (offset : Nat)
    (writeToEof : Bool) (wres : Except BackendError Unit) (now : Nat) :
    Option Nat × FileEntry × List (WriteCall Nat) :=
  if entry.kind = EntryType.Directory then (none, entry, [])
  else
    let off := if writeToEof then entry.size else offset
    if data.isEmpty then (some 0, entry, [])
    else
      let call :=
        if data.length > LARGE_FILE_SIZE then WriteCall.stream entry.ino off data
        else WriteCall.chunk entry.ino off data
      match wres with
      | Except.ok _ =>
          let newEnd := off + data.length
          let entry1 :=
            { entry with size := if newEnd > entry.size then newEnd else entry.size,
                         mtime := now }
          (some data.length, entry1, [call])
      | Except.error _ => (none, entry, [call])

/-- rfs-fuse `RemoteFS::flush_file` on one handle's `(buffer, offset)` pair:
    a single backend write of the buffer at `offset - buffer.len()`
    (`write_stream` over 100 MiB, `write_chunk` otherwise), after which the
    buffer is cleared and the offset reset.  The call is issued whenever the
    handle has a buffer entry, even an empty one. -/
def fuseFlushCalls (path : String) (buf : List Nat) (endOff : Nat) :
    List (WriteCall String) :=
  if buf.length > LARGE_FILE_SIZE then [WriteCall.stream path (endOff - buf.length) buf]
  else [WriteCall.chunk path (endOff - buf.length) buf]

/-- rfs-fuse `RemoteFS::flush_file`: emitted calls and the reset pair. -/
def fuseFlushFile (path : String) (wb : List Nat × Nat) :
    List (WriteCall String) × (List Nat × Nat) :=
  (fuseFlushCalls path wb.1 wb.2, ([], 0))

/-- rfs-fuse `RemoteFS::write` on one handle's `(buffer, last_offset)` pair
    (`off` already resolved, i.e. after the `O_APPEND` adjustment): append to
    the buffer when it is empty or when `buffer.len() == off - last_offset`,
    otherwise flush the existing buffer (the current data is dropped);
    `last_offset` becomes `off + data.len()` in every case and the full
    length is reported.  Returns (reported length, new pair, backend
    calls). -/
def fuseWrite (path : String) (wb : List Nat × Nat) (off : Nat) (data : List Nat) :
    Nat × (List Nat × Nat) × List (WriteCall String) :=
  let buf := wb.1
  let lastOff := wb.2
  let newLast := off + data.length
  if buf.isEmpty then (data.length, (data, newLast), [])
  else if buf.length = off - lastOff then (data.length, (buf ++ data, newLast), [])
  else
    let fl := fuseFlushFile path (buf, newLast)
    (data.length, fl.2, fl.1)

/-! ## rfs-fuse: the `LargeStream` read path -/

/-- Per-handle stream state of the `LargeStream` read mode (rfs-fuse
    `StreamState`); the pending remote stream is modelled as the list of
    chunk results it will yield. -/
structure StreamState where
  pos : Nat
  buffer : List Nat
  stream : Option (List (Except BackendError (List Nat)))
  eof : Bool

/-- Errors surfaced by the fuse `read` callback in `LargeStream` mode:
    `ESPIPE` for a non-sequential offset, `EAGAIN` for an empty non-blocking
    read, or a mapped backend error. -/
inductive FuseReadErr where
  | espipe
  | eagain
  | backendErr (e : BackendError)
deriving DecidableEq

/-- The `while state.buffer.len() < need && !state.eof` pull loop of the
    fuse `read` callback: drain chunks from the stream into the buffer; a
    chunk error is surfaced; stream exhaustion sets `eof`. -/
def pullLoop (need : Nat) :
    List Nat → Bool → List (Except BackendError (List Nat)) →
    Option BackendError × List Nat × List (Except BackendError (List Nat)) × Bool
  | buf, eof, [] =>
      if buf.length < need ∧ eof = false then (none, buf, [], true)
      else (none, buf, [], eof)
  | buf, eof, c :: rest =>
      if buf.length < need ∧ eof = false then
        match c with
        | Except.ok bytes => pullLoop need (buf ++ bytes) eof rest
        | Except.error e => (some e, buf, rest, eof)
      else (none, buf, c :: rest, eof)

/-- Tail of the fuse `LargeStream` read: an empty buffer yields `EAGAIN`
    (non-blocking, stream still open) or an empty read; otherwise up to
    `need` bytes are drained and `pos` advances by the drained length. -/
def fuseReadFinish (st : StreamState) (need : Nat) (nonblock : Bool) :
    Except FuseReadErr (List Nat) × StreamState :=
  if st.buffer.isEmpty then
    if st.eof = false ∧ nonblock then (Except.error FuseReadErr.eagain, st)
    else (Except.ok [], st)
  else
    let take := min need st.buffer.length
    (Except.ok (st.buffer.take take),
      { st with buffer := st.buffer.drop take, pos := st.pos + take })

/-- Body of the fuse `LargeStream` read after the stream has been opened:
    non-blocking empty-buffer check, pull loop, then the drain. -/
def fuseReadCore (st : StreamState) (need : Nat) (nonblock : Bool) :
    Except FuseReadErr (List Nat) × StreamState :=
  if nonblock ∧ st.buffer.isEmpty ∧ st.eof = false then
    (Except.error FuseReadErr.eagain, st)
  else
    match st.stream with
    | some chunks =>
        match pullLoop need st.buffer st.eof chunks with
        | (some e, buf, rest, eof) =>
            (Except.error (FuseReadErr.backendErr e),
              { st with buffer := buf, stream := some rest, eof := eof })
        | (none, buf, rest, eof) =>
            fuseReadFinish { st with buffer := buf, stream := some rest, eof := eof }
              need nonblock
    | none => fuseReadFinish st need nonblock

/-- rfs-fuse `RemoteFS::read`, `ReadMode::LargeStream` branch: a read at an
    offset other than the stream position fails with `ESPIPE` and leaves the
    state untouched; a sequential read opens the stream if needed
    (`openStream` is the backend's `read_stream`), pulls, and drains. -/
def fuseReadLarge
    (openStream : Nat → Except BackendError (List (Except BackendError (List Nat))))
    (st : StreamState) (offset need : Nat) (nonblock : Bool) :
    Except FuseReadErr (List Nat) × StreamState :=
  if offset ≠ st.pos then (Except.error FuseReadErr.espipe, st)
  else
    match st.stream, st.eof with
    | none, false =>
        match openStream st.pos with
        | Except.error e => (Except.error (FuseReadErr.backendErr e), st)
        | Except.ok chunks =>
            fuseReadCore { st with stream := some chunks, buffer := [] } need nonblock
    | some chunks, e =>
        fuseReadCore { st with stream := some chunks, eof := e } need nonblock
    | none, true => fuseReadCore { st with stream := none, eof := true } need nonblock

/-! ## Reference description of `read_chunk` (for the refinement proof) -/

/-- Functional update of a block store. -/
def storePut (store : Nat → Option (List Nat)) (i : Nat) (v : List Nat) :
    Nat → Option (List Nat) :=
  fun j => if j = i then some v else store j

/-- Modelled from the spec (amended):  for one block index, reuse the stored
    block if present; if absent fetch exactly that block (aligned,
    whole-block fetch) and store it, recording the following index as an
    empty vector when the fetch came back short and that index is not
    already present. -/
def specFetch (b : Backend) (path : String) (store : Nat → Option (List Nat))
    (idx : Nat) : Except BackendError (Nat → Option (List Nat)) × List BCall :=
  match store idx with
  | some _ => (Except.ok store, [])
  | none =>
      match b.read_chunk path (blockStart idx) BLOCK_SIZE with
      | Except.error e =>
          (Except.error e, [BCall.readChunk path (blockStart idx) BLOCK_SIZE])
      | Except.ok data =>
          let s1 := storePut store idx data
          let s2 :=
            if data.length < BLOCK_SIZE ∧ s1 (idx + 1) = none then
              storePut s1 (idx + 1) []
            else s1
          (Except.ok s2, [BCall.readChunk path (blockStart idx) BLOCK_SIZE])

/-- Modelled from the spec (amended): assemble the response by copying only
    the requested subrange from each covering block, stopping early at an
    empty block (EOF) or when the requested size is exhausted. -/
def specAssemble (b : Backend) (path : String) (offset reqEnd : Nat) :
    List Nat → (Nat → Option (List Nat)) → List Nat → Nat → List BCall →
    Except BackendError (List Nat) × List BCall
  | [], _, out, _, trace => (Except.ok out, trace)
  | idx :: rest, store, out, remaining, trace =>
      match specFetch b path store idx with
      | (Except.error e, tr) => (Except.error e, trace ++ tr)
      | (Except.ok store1, tr) =>
          let trace1 := trace ++ tr
          let blk := (store1 idx).getD []
          if blk.isEmpty then (Except.ok out, trace1)
          else
            let blockOff := blockStart idx
            let startInBlock := offset - blockOff
            let endInBlock := min (reqEnd - blockOff) blk.length
            let want := endInBlock - startInBlock
            let take := min want remaining
            let out1 := out ++ (blk.drop startInBlock).take take
            let remaining1 := remaining - take
            if remaining1 = 0 then (Except.ok out1, trace1)
            else specAssemble b path offset reqEnd rest store1 out1 remaining1 trace1

/-- Modelled from the spec (amended): `read_chunk` over the covering block
    range `[first..=last]`, starting from the blocks cached for `path`. -/
def specReadChunk (b : Backend) (st : CacheState) (path : String)
    (offset size : Nat) : Except BackendError (List Nat) × List BCall :=
  if size = 0 then (Except.ok [], [])
  else
    let span := blocksSpan offset size
    specAssemble b path offset (offset + size)
      (List.range' span.1 (span.2 + 1 - span.1)) (innerLookup st path) [] size []

/-- A backend whose every response is an error; concrete witness states
    override the fields they need. -/
def failBackend : Backend where
  list_dir := fun _ => Except.error (BackendError.Other "unused")
  get_attr := fun _ => Except.error (BackendError.Other "unused")
  get_attr_if_modified_since := fun _ _ => Except.error (BackendError.Other "unused")
  create_file := fun _ => Except.error (BackendError.Other "unused")
  create_dir := fun _ => Except.error (BackendError.Other "unused")
  delete_file := fun _ => Except.error (BackendError.Other "unused")
  delete_dir := fun _ => Except.error (BackendError.Other "unused")
  read_chunk := fun _ _ _ => Except.error (BackendError.Other "unused")
  write_chunk := fun _ _ _ => Except.error (BackendError.Other "unused")
  rename := fun _ _ => Except.error (BackendError.Other "unused")
  set_attr := fun _ _ => Except.error (BackendError.Other "unused")

/-- A concrete file entry used by witness states. -/
def entA : FileEntry where
  ino := 7
  name := "f"
  path := "/d/f"
  kind := EntryType.File
  size := 3
  perms := 420
  uid := 0
  gid := 0
  atime := 0
  mtime := 5
  ctime := 0
  btime := 0
  nlinks := 1

/-- The entry of `entA` after a server-side modification. -/
def entB : FileEntry := { entA with mtime := 9, size := 4 }

/-- Witness backend for the revalidation path: the conditional `get_attr`
    reports a change. -/
def bC1 : Backend :=
  { failBackend with get_attr_if_modified_since := fun _ _ => Except.ok (some entB) }

/-- Witness cache state: `/d/f` has a cached entry and one cached block. -/
def stC1 : CacheState where
  attr := [("/d/f", entA)]
  dir := []
  blocks := [("/d/f", [(0, [1, 2, 3])])]

/-- Witness backend for `write_chunk`: the backend reports 5 bytes written. -/
def bC4 : Backend :=
  { failBackend with write_chunk := fun _ _ _ => Except.ok 5 }

/-- Witness cache state for `write_chunk`: `/d/f` has blocks 0 and 2 cached. -/
def stC4 : CacheState where
  attr := [("/d/f", entA)]
  dir := []
  blocks := [("/d/f", [(0, [1, 2, 3]), (2, [4, 5])]), ("/d/g", [(0, [6])])]

/-- Counterexample backend for C5: `list_dir` fails. -/
def bC5 : Backend :=
  { failBackend with list_dir := fun _ => Except.error BackendError.Forbidden }

/-- Counterexample cache state for C5: a listing for `/d` is cached but its
    child's metadata is not. -/
def stC5 : CacheState where
  attr := []
  dir := [("/d", ["/d/c"])]
  blocks := []

/-- Witness backend for the amended C5: `write_chunk` fails with
    `ServerUnreachable`. -/
def bC5w : Backend :=
  { failBackend with write_chunk := fun _ _ _ => Except.error BackendError.ServerUnreachable }

/-- Witness backend for C10: `create_file` succeeds. -/
def bC10 : Backend :=
  { failBackend with create_file := fun _ => Except.ok entA }

/-- Witness cache state for C10: the parent `/d` has cached metadata and a
    cached listing. -/
def stC10 : CacheState where
  attr := [("/d", entA)]
  dir := [("/d", [])]
  blocks := []

/-- Witness stream state: position 5. -/
def stC8 : StreamState where
  pos := 5
  buffer := []
  stream := none
  eof := false

/-- Witness stream state at position 0. -/
def stC8b : StreamState where
  pos := 0
  buffer := []
  stream := none
  eof := false

/-- Witness remote stream: one chunk of three bytes. -/
def osC8 : Nat → Except BackendError (List (Except BackendError (List Nat))) :=
  fun _ => Except.ok [Except.ok [1, 2, 3]]

/-- The file entry used by the adapter-write counterexamples. -/
def entW : FileEntry := { entA with path := "/w", name := "w", size := 0 }

/-- First of three contiguous winfsp writes (offset 0, four bytes). -/
def wWrite1 : Option Nat × FileEntry × List (WriteCall Nat) :=
  winfspWrite entW [1, 1, 1, 1] 0 false (Except.ok ()) 0

/-- Second contiguous winfsp write (offset 4). -/
def wWrite2 : Option Nat × FileEntry × List (WriteCall Nat) :=
  winfspWrite wWrite1.2.1 [2, 2, 2, 2] 4 false (Except.ok ()) 0

/-- Third contiguous winfsp write (offset 8). -/
def wWrite3 : Option Nat × FileEntry × List (WriteCall Nat) :=
  winfspWrite wWrite2.2.1 [3, 3, 3, 3] 8 false (Except.ok ()) 0

/-- Counterexample cache state for C2: block 0 of `/f` is cached short
    (10 bytes) and block 1 is cached non-empty (5 bytes). -/
def stC2 : CacheState where
  attr := []
  dir := []
  blocks := [("/f", [(0, List.replicate 10 1), (1, List.replicate 5 2)])]

theorem alLookup_erase_self {K V : Type} [DecidableEq K] (k : K) (l : List (K × V)) :
    alLookup k (alErase k l) = none := by
  induction l with
  | nil => rfl
  | cons p rest ih =>
    obtain ⟨k', v⟩ := p
    by_cases h : k' = k
    · simpa [alErase, h] using ih
    · simpa [alErase, alLookup, h] using ih

theorem alLookup_erase_ne {K V : Type} [DecidableEq K] {q k : K} (h : q ≠ k)
    (l : List (K × V)) : alLookup q (alErase k l) = alLookup q l := by
  induction l with
  | nil => rfl
  | cons p rest ih =>
    obtain ⟨k', v⟩ := p
    by_cases hp : k' = k
    · subst hp
      have hkq : ¬ (k' = q) := fun hh => h (hh ▸ rfl)
      simp [alErase, alLookup, hkq]
      exact ih
    · by_cases hq : k' = q
      · subst hq
        simp [alErase, alLookup, hp]
      · simp [alErase, alLookup, hp, hq]
        exact ih

theorem alLookup_put_self {K V : Type} [DecidableEq K] (k : K) (v : V) (l : List (K × V)) :
    alLookup k (alPut k v l) = some v := by
  simp [alPut, alLookup]

theorem alLookup_put_ne {K V : Type} [DecidableEq K] {q k : K} (h : q ≠ k) (v : V)
    (l : List (K × V)) : alLookup q (alPut k v l) = alLookup q l := by
  have hk : k ≠ q := fun hh => h hh.symm
  simp [alPut, alLookup, hk]
  exact alLookup_erase_ne h l

theorem alLookup_mem {K V : Type} [DecidableEq K] {k : K} {v : V} {l : List (K × V)}
    (h : alLookup k l = some v) : (k, v) ∈ l := by
  induction l with
  | nil => simp [alLookup] at h
  | cons p rest ih =>
    obtain ⟨k', w⟩ := p
    by_cases hp : k' = k
    · subst hp
      simp [alLookup] at h
      subst h
      exact List.mem_cons_self _ _
    · simp [alLookup, hp] at h
      exact List.mem_cons_of_mem _ (ih h)

/-- Lookup in a key-filtered association list. -/
theorem alLookup_filter_key {K V : Type} [DecidableEq K] (q : K → Bool) (k : K)
    (l : List (K × V)) :
    alLookup k (l.filter (fun p => q p.1)) = if q k then alLookup k l else none := by
  induction l with
  | nil => simp [alLookup]
  | cons p rest ih =>
    obtain ⟨k', w⟩ := p
    by_cases hq : q k'
    · by_cases hp : k' = k
      · subst hp
        simp [alLookup, hq]
      · simp [alLookup, hq, hp, ih]
    · by_cases hp : k' = k
      · subst hp
        simp [alLookup, hq, ih]
      · simp [alLookup, hq, hp, ih]

/-- Promotion preserves lookups: after `alGet k l = some (v, l')`,
    `l'` has the same lookups as `l`. -/
theorem alLookup_alGet {K V : Type} [DecidableEq K] {k : K} {v : V} {l l' : List (K × V)}
    (h : alGet k l = some (v, l')) (q : K) : alLookup q l' = alLookup q l := by
  unfold alGet at h
  cases hl : alLookup k l with
  | none => simp [hl] at h
  | some w =>
    simp [hl] at h
    obtain ⟨hv, hl'⟩ := h
    subst hv
    subst hl'
    by_cases hq : q = k
    · subst hq
      simp [alLookup, hl]
    · have hk : ¬ (k = q) := fun hh => hq hh.symm
      simp [alLookup, hk]
      exact alLookup_erase_ne hq l

theorem skipNonSlash_length_le (r : List Char) : (skipNonSlash r).length ≤ r.length := by
  induction r with
  | nil => simp [skipNonSlash]
  | cons c rest ih =>
    by_cases h : c = '/'
    · simp [skipNonSlash, h]
    · simp [skipNonSlash, h]
      exact Nat.le_succ_of_le ih

theorem skipSlash_length_le (r : List Char) : (skipSlash r).length ≤ r.length := by
  induction r with
  | nil => simp [skipSlash]
  | cons c rest ih =>
    by_cases h : c = '/'
    · simp [skipSlash, h]
      exact Nat.le_succ_of_le ih
    · simp [skipSlash, h]

theorem skipBoth_length_lt (r : List Char) (h : r ≠ []) :
    (skipSlash (skipNonSlash r)).length < r.length := by
  cases r with
  | nil => exact absurd rfl h
  | cons c rest =>
    by_cases hc : c = '/'
    · simp [skipNonSlash, hc, skipSlash]
      exact Nat.lt_succ_of_le (skipSlash_length_le rest)
    · simp [skipNonSlash, hc]
      exact Nat.lt_succ_of_le
        (Nat.le_trans (skipSlash_length_le _) (skipNonSlash_length_le rest))

/-- The parent returned by `getParentStr` is never the path itself. -/
theorem getParentStr_ne_self {path par : String} (h : getParentStr path = some par) :
    par ≠ path := by
  unfold getParentStr at h
  by_cases hg : path = "" ∨ path = "/"
  · simp [hg] at h
  · rw [if_neg hg] at h
    by_cases hd : skipNonSlash path.toList.reverse = ['/']
    · rw [if_pos hd] at h
      simp at h
      intro he
      exact hg (Or.inr (he ▸ h.symm))
    · rw [if_neg hd] at h
      simp at h
      intro he
      have hne : path.toList.reverse ≠ [] := by
        intro hr
        have : path.toList = [] := by
          have := congrArg List.reverse hr
          simpa using this
        apply hg
        left
        cases path with
        | mk data =>
          simp [String.toList] at this
          simp [this]
      have hlt := skipBoth_length_lt path.toList.reverse hne
      have hlen : par.toList.length = (skipSlash (skipNonSlash path.toList.reverse)).length := by
        rw [← h]
        simp [String.toList]
      rw [he] at hlen
      simp at hlen
      have hconv : path.toList = path.data := rfl
      rw [hconv] at hlt
      have hrev : path.data.reverse.length = path.data.length := List.length_reverse _
      have hplen : path.length = path.data.length := rfl
      omega

/-! ## Supporting lemmas about the cache helpers -/

theorem alGet_eq_some {K V : Type} [DecidableEq K] {k : K} {v : V} {l l' : List (K × V)}
    (h : alGet k l = some (v, l')) :
    alLookup k l = some v ∧ l' = (k, v) :: alErase k l := by
  unfold alGet at h
  cases hl : alLookup k l with
  | none => simp [hl] at h
  | some w =>
    rw [hl] at h
    have h2 := Option.some.inj h
    have ha : w = v := congrArg Prod.fst h2
    have hb : (k, w) :: alErase k l = l' := congrArg Prod.snd h2
    subst ha
    exact ⟨rfl, hb.symm⟩

theorem alGet_eq_none {K V : Type} [DecidableEq K] {k : K} {l : List (K × V)}
    (h : alGet k l = none) : alLookup k l = none := by
  unfold alGet at h
  cases hl : alLookup k l with
  | none => rfl
  | some w => simp [hl] at h

theorem invalidateBlocksFor_attr (st : CacheState) (path : String) (lo hi : Option Nat) :
    (invalidateBlocksFor st path lo hi).attr = st.attr := by
  cases h : alGet path st.blocks with
  | none => simp [invalidateBlocksFor, h]
  | some p =>
    obtain ⟨fc, bp⟩ := p
    simp only [invalidateBlocksFor, h]
    split <;> rfl

theorem invalidateBlocksFor_dir (st : CacheState) (path : String) (lo hi : Option Nat) :
    (invalidateBlocksFor st path lo hi).dir = st.dir := by
  cases h : alGet path st.blocks with
  | none => simp [invalidateBlocksFor, h]
  | some p =>
    obtain ⟨fc, bp⟩ := p
    simp only [invalidateBlocksFor, h]
    split <;> rfl

theorem innerLookup_invalidateBlocksFor_self (st : CacheState) (path : String)
    (lo hi : Option Nat) (idx : Nat) :
    innerLookup (invalidateBlocksFor st path lo hi) path idx =
      if inIdxRange idx lo hi then none else innerLookup st path idx := by
  cases h : alGet path st.blocks with
  | none =>
    have hn : alLookup path st.blocks = none := alGet_eq_none h
    simp [invalidateBlocksFor, h, innerLookup, hn]
  | some p =>
    obtain ⟨fc, bp⟩ := p
    obtain ⟨hl, hbp⟩ := alGet_eq_some h
    simp only [invalidateBlocksFor, h]
    by_cases he : (fc.filter (fun p => ! inIdxRange p.1 lo hi)).isEmpty = true
    · rw [if_pos he]
      have hfe : fc.filter (fun p => ! inIdxRange p.1 lo hi) = [] :=
        List.isEmpty_iff.mp he
      have hout : innerLookup { st with blocks := alErase path bp } path idx = none := by
        unfold innerLookup
        rw [alLookup_erase_self]
      by_cases hin : inIdxRange idx lo hi = true
      · rw [hout, if_pos hin]
      · have hnone : alLookup idx fc = none := by
          cases hlk : alLookup idx fc with
          | none => rfl
          | some v =>
            have hmem := alLookup_mem hlk
            have hP := List.filter_eq_nil_iff.mp hfe _ hmem
            simp at hP
            exact absurd hP (by simpa using hin)
        rw [hout, if_neg hin]
        simp [innerLookup, hl, hnone]
    · rw [if_neg he]
      have hlp : innerLookup
          { st with blocks := alPut path (fc.filter (fun p => ! inIdxRange p.1 lo hi)) bp }
          path idx = alLookup idx (fc.filter (fun p => ! inIdxRange p.1 lo hi)) := by
        simp [innerLookup, alLookup_put_self]
      rw [hlp, alLookup_filter_key (fun i => ! inIdxRange i lo hi) idx fc]
      by_cases hin : inIdxRange idx lo hi = true
      · simp [hin]
      · simp [hin, innerLookup, hl]

theorem innerLookup_invalidateBlocksFor_other {q path : String} (h : q ≠ path)
    (st : CacheState) (lo hi : Option Nat) (idx : Nat) :
    innerLookup (invalidateBlocksFor st path lo hi) q idx = innerLookup st q idx := by
  cases hg : alGet path st.blocks with
  | none => simp [invalidateBlocksFor, hg]
  | some p =>
    obtain ⟨fc, bp⟩ := p
    obtain ⟨hl, hbp⟩ := alGet_eq_some hg
    have hq : alLookup q bp = alLookup q st.blocks := by
      rw [hbp]
      have hk : ¬ (path = q) := fun hh => h hh.symm
      simp [alLookup, hk]
      exact alLookup_erase_ne h st.blocks
    simp only [invalidateBlocksFor, hg]
    split
    · unfold innerLookup
      simp only
      rw [alLookup_erase_ne h, hq]
    · unfold innerLookup
      simp only
      rw [alLookup_put_ne h, hq]

theorem putAttrAndInvalidateParent_blocks (st : CacheState) (path : String) (e : FileEntry) :
    (putAttrAndInvalidateParent st path e).blocks = st.blocks := by
  unfold putAttrAndInvalidateParent
  cases getParentStr path <;> rfl

theorem putAttrAndInvalidateParent_attr_self (st : CacheState) (path : String)
    (e : FileEntry) :
    alLookup path (putAttrAndInvalidateParent st path e).attr = some e := by
  unfold putAttrAndInvalidateParent
  cases hp : getParentStr path with
  | none => exact alLookup_put_self path e st.attr
  | some par =>
    have hne : path ≠ par := fun hh => getParentStr_ne_self hp hh.symm
    simp only
    rw [alLookup_erase_ne hne, alLookup_put_self]

theorem putAttrAndInvalidateParent_parent {st : CacheState} {path par : String}
    {e : FileEntry} (hp : getParentStr path = some par) :
    alLookup par (putAttrAndInvalidateParent st path e).attr = none ∧
    alLookup par (putAttrAndInvalidateParent st path e).dir = none := by
  unfold putAttrAndInvalidateParent
  rw [hp]
  exact ⟨alLookup_erase_self par _, alLookup_erase_self par _⟩

theorem invalidateAttrAndParent_blocks (st : CacheState) (path : String) :
    (invalidateAttrAndParent st path).blocks = st.blocks := by
  unfold invalidateAttrAndParent
  cases getParentStr path <;> rfl

theorem invalidateAttrAndParent_attr_self (st : CacheState) (path : String) :
    alLookup path (invalidateAttrAndParent st path).attr = none := by
  unfold invalidateAttrAndParent
  cases hp : getParentStr path with
  | none => exact alLookup_erase_self path st.attr
  | some par =>
    have hne : path ≠ par := fun hh => getParentStr_ne_self hp hh.symm
    simp only
    rw [alLookup_erase_ne hne, alLookup_erase_self]

theorem invalidateAttrAndParent_parent {st : CacheState} {path par : String}
    (hp : getParentStr path = some par) :
    alLookup par (invalidateAttrAndParent st path).attr = none ∧
    alLookup par (invalidateAttrAndParent st path).dir = none := by
  unfold invalidateAttrAndParent
  rw [hp]
  exact ⟨alLookup_erase_self par _, alLookup_erase_self par _⟩

theorem innerLookup_eq_of_blocks {st st' : CacheState} (h : st'.blocks = st.blocks)
    (p : String) (i : Nat) : innerLookup st' p i = innerLookup st p i := by
  unfold innerLookup
  rw [h]

/-! ## Claim theorems -/

/-- C9: for every file and offset, `Cache::read_chunk` with size 0 returns
    the empty byte vector, performs no backend call, and leaves the cache
    state unchanged. -/
theorem read_chunk_zero_size_noop (b : Backend) (st : CacheState) (path : String)
    (offset : Nat) : Cache.read_chunk b st path offset 0 = (Except.ok [], st, []) := rfl

/-- C1: `Cache::get_attr` issues a conditional revalidation against the
    cached entry's `mtime` when one is cached; a reported change invalidates
    all cached blocks of the file and stores the new entry, a reported
    no-change returns the cached copy without changing any tier's contents,
    and a miss fetches unconditionally and stores the result. -/
theorem get_attr_conditional_revalidation (b : Backend) (st : CacheState)
    (path : String) :
    (∀ cached, alLookup path st.attr = some cached →
      (Cache.get_attr b st path).2.2 = [BCall.getAttrIfModifiedSince path cached.mtime] ∧
      (∀ updated,
        b.get_attr_if_modified_since path cached.mtime = Except.ok (some updated) →
        (Cache.get_attr b st path).1 = Except.ok updated ∧
        (∀ idx, innerLookup (Cache.get_attr b st path).2.1 path idx = none) ∧
        alLookup path (Cache.get_attr b st path).2.1.attr = some updated) ∧
      (b.get_attr_if_modified_since path cached.mtime = Except.ok none →
        (Cache.get_attr b st path).1 = Except.ok cached ∧
        (∀ q, alLookup q (Cache.get_attr b st path).2.1.attr = alLookup q st.attr) ∧
        (Cache.get_attr b st path).2.1.dir = st.dir ∧
        (Cache.get_attr b st path).2.1.blocks = st.blocks)) ∧
    (alLookup path st.attr = none →
      (Cache.get_attr b st path).2.2 = [BCall.getAttr path] ∧
      (∀ fresh, b.get_attr path = Except.ok fresh →
        (Cache.get_attr b st path).1 = Except.ok fresh ∧
        alLookup path (Cache.get_attr b st path).2.1.attr = some fresh)) := by
  constructor
  · intro cached hc
    have hg : alGet path st.attr = some (cached, (path, cached) :: alErase path st.attr) := by
      unfold alGet
      rw [hc]
    refine ⟨?_, ?_, ?_⟩
    · simp only [Cache.get_attr, hg]
      cases hb : b.get_attr_if_modified_since path cached.mtime with
      | ok o => cases o <;> rfl
      | error e => rfl
    · intro updated hu
      simp only [Cache.get_attr, hg, hu]
      refine ⟨trivial, ?_, ?_⟩
      · intro idx
        rw [innerLookup_eq_of_blocks (putAttrAndInvalidateParent_blocks _ _ _),
          innerLookup_invalidateBlocksFor_self]
        simp [inIdxRange]
      · exact putAttrAndInvalidateParent_attr_self _ _ _
    · intro hn
      simp only [Cache.get_attr, hg, hn]
      refine ⟨trivial, ?_, trivial, trivial⟩
      intro q
      exact alLookup_alGet hg q
  · intro hn
    have hg : alGet path st.attr = none := by
      unfold alGet
      rw [hn]
    refine ⟨?_, ?_⟩
    · simp only [Cache.get_attr, hg]
      cases hb : b.get_attr path <;> rfl
    · intro fresh hf
      simp only [Cache.get_attr, hg, hf]
      exact ⟨trivial, putAttrAndInvalidateParent_attr_self _ _ _⟩

theorem get_attr_conditional_revalidation_witness :
    (Cache.get_attr bC1 stC1 "/d/f").2.2 = [BCall.getAttrIfModifiedSince "/d/f" 5] ∧
    (Cache.get_attr bC1 stC1 "/d/f").1 = Except.ok entB ∧
    innerLookup (Cache.get_attr bC1 stC1 "/d/f").2.1 "/d/f" 0 = none := by
  have h := (get_attr_conditional_revalidation bC1 stC1 "/d/f").1 entA rfl
  exact ⟨h.1, (h.2.1 entB rfl).1, (h.2.1 entB rfl).2.1 0⟩

/-- C4: a successful `Cache::write_chunk` writing `n > 0` bytes returns `n`,
    removes exactly the cached blocks in the covering range
    `[first(offset)..=last(offset+n-1)]` of that file (other files' blocks
    are untouched), and evicts the file's cached metadata entry. -/
theorem write_chunk_invalidates_covering_range (b : Backend) (st : CacheState)
    (path : String) (offset : Nat) (data : List Nat) (n : Nat)
    (hw : b.write_chunk path offset data = Except.ok n) (hn : 0 < n) :
    (Cache.write_chunk b st path offset data).1 = Except.ok n ∧
    (∀ idx, innerLookup (Cache.write_chunk b st path offset data).2.1 path idx =
      if (blocksSpan offset n).1 ≤ idx ∧ idx ≤ (blocksSpan offset n).2 then none
      else innerLookup st path idx) ∧
    (∀ q, q ≠ path → ∀ idx,
      innerLookup (Cache.write_chunk b st path offset data).2.1 q idx =
        innerLookup st q idx) ∧
    alLookup path (Cache.write_chunk b st path offset data).2.1.attr = none := by
  simp only [Cache.write_chunk, hw, hn, if_pos]
  refine ⟨trivial, ?_, ?_, ?_⟩
  · intro idx
    rw [innerLookup_eq_of_blocks (invalidateAttrAndParent_blocks _ _),
      innerLookup_invalidateBlocksFor_self]
    by_cases hin : (blocksSpan offset n).1 ≤ idx ∧ idx ≤ (blocksSpan offset n).2
    · rw [if_pos hin, if_pos]
      simpa [inIdxRange] using hin
    · rw [if_neg hin, if_neg]
      simpa [inIdxRange] using hin
  · intro q hq idx
    rw [innerLookup_eq_of_blocks (invalidateAttrAndParent_blocks _ _),
      innerLookup_invalidateBlocksFor_other hq]
  · exact invalidateAttrAndParent_attr_self _ _

theorem write_chunk_invalidates_covering_range_witness :
    0 < 5 ∧
    (Cache.write_chunk bC4 stC4 "/d/f" 0 [9, 9, 9, 9, 9]).1 = Except.ok 5 ∧
    innerLookup (Cache.write_chunk bC4 stC4 "/d/f" 0 [9, 9, 9, 9, 9]).2.1 "/d/f" 0 = none ∧
    alLookup "/d/f" (Cache.write_chunk bC4 stC4 "/d/f" 0 [9, 9, 9, 9, 9]).2.1.attr = none := by
  have h := write_chunk_invalidates_covering_range bC4 stC4 "/d/f" 0 [9, 9, 9, 9, 9] 5
    rfl (by decide)
  refine ⟨by decide, h.1, ?_, h.2.2.2⟩
  have h0 := h.2.1 0
  rw [h0]
  decide

/-- C5 counterexample: a `list_dir` whose backend call fails still evicts
    the stale cached listing of `/d`, so an erroring call does not leave all
    three tiers exactly as they were. -/
theorem cache_error_transparency_counterexample :
    (Cache.list_dir bC5 stC5 "/d").1 = Except.error BackendError.Forbidden ∧
    (Cache.list_dir bC5 stC5 "/d").2.2 = [BCall.listDir "/d"] ∧
    alLookup "/d" stC5.dir = some ["/d/c"] ∧
    alLookup "/d" (Cache.list_dir bC5 stC5 "/d").2.1.dir = none :=
  ⟨rfl, rfl, rfl, rfl⟩

/-- C5 (amended): every cache operation forwards the backend error
    unchanged; the operations that perform no cache maintenance before their
    single backend call (`get_attr`, `create_file`, `create_dir`,
    `delete_file`, `delete_dir`, `write_chunk`, `rename`, `set_attr`) leave
    the contents of all three tiers unchanged on error, and `list_dir`
    forwards the error unchanged from whatever state its cache probe left. -/
theorem cache_error_transparency (b : Backend) (st : CacheState)
    (path path2 : String) (offset : Nat) (data : List Nat)
    (attrs : SetAttrRequest) (e : BackendError) :
    ((∀ cached, alLookup path st.attr = some cached →
        b.get_attr_if_modified_since path cached.mtime = Except.error e →
        (Cache.get_attr b st path).1 = Except.error e ∧
        (∀ q, alLookup q (Cache.get_attr b st path).2.1.attr = alLookup q st.attr) ∧
        (Cache.get_attr b st path).2.1.dir = st.dir ∧
        (Cache.get_attr b st path).2.1.blocks = st.blocks) ∧
      (alLookup path st.attr = none → b.get_attr path = Except.error e →
        Cache.get_attr b st path = (Except.error e, st, [BCall.getAttr path]))) ∧
    (b.create_file path = Except.error e →
      Cache.create_file b st path = (Except.error e, st, [BCall.createFile path])) ∧
    (b.create_dir path = Except.error e →
      Cache.create_dir b st path = (Except.error e, st, [BCall.createDir path])) ∧
    (b.delete_file path = Except.error e →
      Cache.delete_file b st path = (Except.error e, st, [BCall.deleteFile path])) ∧
    (b.delete_dir path = Except.error e →
      Cache.delete_dir b st path = (Except.error e, st, [BCall.deleteDir path])) ∧
    (b.write_chunk path offset data = Except.error e →
      Cache.write_chunk b st path offset data =
        (Except.error e, st, [BCall.writeChunk path offset data])) ∧
    (b.rename path path2 = Except.error e →
      Cache.rename b st path path2 = (Except.error e, st, [BCall.rename path path2])) ∧
    (b.set_attr path attrs = Except.error e →
      Cache.set_attr b st path attrs = (Except.error e, st, [BCall.setAttr path attrs])) ∧
    (∀ st1, listDirFromCache st path = (none, st1) → b.list_dir path = Except.error e →
      Cache.list_dir b st path = (Except.error e, st1, [BCall.listDir path])) := by
  refine ⟨⟨?_, ?_⟩, ?_, ?_, ?_, ?_, ?_, ?_, ?_, ?_⟩
  · intro cached hc hb
    have hg : alGet path st.attr = some (cached, (path, cached) :: alErase path st.attr) := by
      unfold alGet
      rw [hc]
    simp only [Cache.get_attr, hg, hb]
    exact ⟨trivial, fun q => alLookup_alGet hg q, trivial, trivial⟩
  · intro hn hb
    have hg : alGet path st.attr = none := by
      unfold alGet
      rw [hn]
    simp [Cache.get_attr, hg, hb]
  · intro hb
    simp [Cache.create_file, hb]
  · intro hb
    simp [Cache.create_dir, hb]
  · intro hb
    simp [Cache.delete_file, hb]
  · intro hb
    simp [Cache.delete_dir, hb]
  · intro hb
    simp [Cache.write_chunk, hb]
  · intro hb
    simp [Cache.rename, hb]
  · intro hb
    simp [Cache.set_attr, hb]
  · intro st1 hld hb
    simp [Cache.list_dir, hld, hb]

theorem cache_error_transparency_witness :
    Cache.write_chunk bC5w stC4 "/d/f" 0 [1] =
      (Except.error BackendError.ServerUnreachable, stC4, [BCall.writeChunk "/d/f" 0 [1]]) := by
  exact (cache_error_transparency bC5w stC4 "/d/f" "/x" 0 [1]
    { perm := none, uid := none, gid := none, size := none, flags := none }
    BackendError.ServerUnreachable).2.2.2.2.2.1 rfl

theorem alLookup_erase_of_none {K V : Type} [DecidableEq K] {k : K} (j : K)
    {l : List (K × V)} (h : alLookup k l = none) : alLookup k (alErase j l) = none := by
  by_cases hj : k = j
  · subst hj
    exact alLookup_erase_self k l
  · rw [alLookup_erase_ne hj]
    exact h

theorem alLookup_put_of_none_ne {K V : Type} [DecidableEq K] {k j : K} (hj : k ≠ j)
    (v : V) {l : List (K × V)} (h : alLookup k l = none) :
    alLookup k (alPut j v l) = none := by
  rw [alLookup_put_ne hj]
  exact h

theorem putAttrAndInvalidateParent_preserves_none {st : CacheState} {path q : String}
    (e : FileEntry) (hq : q ≠ path) (ha : alLookup q st.attr = none)
    (hd : alLookup q st.dir = none) :
    alLookup q (putAttrAndInvalidateParent st path e).attr = none ∧
    alLookup q (putAttrAndInvalidateParent st path e).dir = none := by
  unfold putAttrAndInvalidateParent
  cases getParentStr path with
  | none => exact ⟨alLookup_put_of_none_ne hq e ha, hd⟩
  | some par =>
    exact ⟨alLookup_erase_of_none par (alLookup_put_of_none_ne hq e ha),
      alLookup_erase_of_none par hd⟩

/-- C10: whenever a cache operation stores or evicts the metadata entry of a
    path (the `get_attr` refresh and miss paths, `create_file`, `create_dir`,
    `write_chunk`, `set_attr`, `delete_file`, `delete_dir`, `rename`), it
    additionally evicts the cached metadata entry and the cached directory
    listing of the path's parent directory. -/
theorem parent_eviction_on_metadata_change (b : Backend) (st : CacheState)
    (path oldPath newPath par : String) (offset : Nat) (data : List Nat)
    (attrs : SetAttrRequest) (hpar : getParentStr path = some par) :
    (∀ cached updated, alLookup path st.attr = some cached →
      b.get_attr_if_modified_since path cached.mtime = Except.ok (some updated) →
      alLookup par (Cache.get_attr b st path).2.1.attr = none ∧
      alLookup par (Cache.get_attr b st path).2.1.dir = none) ∧
    (∀ fresh, alLookup path st.attr = none → b.get_attr path = Except.ok fresh →
      alLookup par (Cache.get_attr b st path).2.1.attr = none ∧
      alLookup par (Cache.get_attr b st path).2.1.dir = none) ∧
    (∀ entry, b.create_file path = Except.ok entry →
      alLookup par (Cache.create_file b st path).2.1.attr = none ∧
      alLookup par (Cache.create_file b st path).2.1.dir = none) ∧
    (∀ entry, b.create_dir path = Except.ok entry →
      alLookup par (Cache.create_dir b st path).2.1.attr = none ∧
      alLookup par (Cache.create_dir b st path).2.1.dir = none) ∧
    (∀ n, b.write_chunk path offset data = Except.ok n →
      alLookup par (Cache.write_chunk b st path offset data).2.1.attr = none ∧
      alLookup par (Cache.write_chunk b st path offset data).2.1.dir = none) ∧
    (∀ entry, b.set_attr path attrs = Except.ok entry →
      alLookup par (Cache.set_attr b st path attrs).2.1.attr = none ∧
      alLookup par (Cache.set_attr b st path attrs).2.1.dir = none) ∧
    (b.delete_file path = Except.ok () →
      alLookup par (Cache.delete_file b st path).2.1.attr = none ∧
      alLookup par (Cache.delete_file b st path).2.1.dir = none) ∧
    (b.delete_dir path = Except.ok () →
      alLookup par (Cache.delete_dir b st path).2.1.attr = none ∧
      alLookup par (Cache.delete_dir b st path).2.1.dir = none) ∧
    (∀ entry parOld parNew, b.rename oldPath newPath = Except.ok entry →
      getParentStr oldPath = some parOld → getParentStr newPath = some parNew →
      parOld ≠ newPath →
      (alLookup parNew (Cache.rename b st oldPath newPath).2.1.attr = none ∧
       alLookup parNew (Cache.rename b st oldPath newPath).2.1.dir = none) ∧
      (alLookup parOld (Cache.rename b st oldPath newPath).2.1.attr = none ∧
       alLookup parOld (Cache.rename b st oldPath newPath).2.1.dir = none)) := by
  refine ⟨?_, ?_, ?_, ?_, ?_, ?_, ?_, ?_, ?_⟩
  · intro cached updated hc hu
    have hg : alGet path st.attr = some (cached, (path, cached) :: alErase path st.attr) := by
      unfold alGet
      rw [hc]
    simp only [Cache.get_attr, hg, hu]
    exact putAttrAndInvalidateParent_parent hpar
  · intro fresh hn hf
    have hg : alGet path st.attr = none := by
      unfold alGet
      rw [hn]
    simp only [Cache.get_attr, hg, hf]
    exact putAttrAndInvalidateParent_parent hpar
  · intro entry hb
    simp only [Cache.create_file, hb]
    exact putAttrAndInvalidateParent_parent hpar
  · intro entry hb
    simp only [Cache.create_dir, hb]
    exact putAttrAndInvalidateParent_parent hpar
  · intro n hb
    simp only [Cache.write_chunk, hb]
    exact invalidateAttrAndParent_parent hpar
  · intro entry hb
    simp only [Cache.set_attr, hb]
    cases hs : attrs.size with
    | none =>
      simp only [hs]
      exact putAttrAndInvalidateParent_parent hpar
    | some newSize =>
      simp only [hs]
      constructor
      · rw [invalidateBlocksFor_attr]
        exact (putAttrAndInvalidateParent_parent hpar).1
      · rw [invalidateBlocksFor_dir]
        exact (putAttrAndInvalidateParent_parent hpar).2
  · intro hb
    simp only [Cache.delete_file, hb]
    exact invalidateAttrAndParent_parent hpar
  · intro hb
    simp only [Cache.delete_dir, hb]
    exact invalidateAttrAndParent_parent hpar
  · intro entry parOld parNew hb hpo hpn hne
    simp only [Cache.rename, hb]
    constructor
    · exact putAttrAndInvalidateParent_parent hpn
    · have hold := @invalidateAttrAndParent_parent (invalidateAllUnder st oldPath) oldPath parOld hpo
      exact putAttrAndInvalidateParent_preserves_none entry hne hold.1 hold.2

theorem parent_eviction_on_metadata_change_witness :
    getParentStr "/d/f" = some "/d" ∧
    alLookup "/d" (Cache.create_file bC10 stC10 "/d/f").2.1.attr = none ∧
    alLookup "/d" (Cache.create_file bC10 stC10 "/d/f").2.1.dir = none := by
  have h := (parent_eviction_on_metadata_change bC10 stC10 "/d/f" "/x" "/y" "/d"
    0 [] { perm := none, uid := none, gid := none, size := none, flags := none }
    (by decide)).2.2.1 entA rfl
  exact ⟨by decide, h.1, h.2⟩

/-- C3: a backend call answered with 401 triggers exactly one silent
    re-authentication followed by exactly one retry of the same call; a
    second 401 surfaces as `Unauthorized`; any other first response involves
    no re-authentication and no retry. -/
theorem request_retries_once_on_unauthorized (α : Type) (r1 r2 : HttpResp α)
    (authRes : Except BackendError Unit) :
    (r1 = HttpResp.unauthorized →
      (httpRequest r1 r2 (Except.ok ())).2 =
        [ReqEvent.send, ReqEvent.auth, ReqEvent.send] ∧
      (httpRequest r1 r2 (Except.ok ())).2.count ReqEvent.auth = 1 ∧
      (httpRequest r1 r2 (Except.ok ())).2.count ReqEvent.send = 2 ∧
      (r2 = HttpResp.unauthorized →
        (httpRequest r1 r2 (Except.ok ())).1 = Except.error BackendError.Unauthorized)) ∧
    (r1 ≠ HttpResp.unauthorized →
      (httpRequest r1 r2 authRes).2 = [ReqEvent.send]) := by
  constructor
  · intro h1
    subst h1
    refine ⟨rfl, rfl, rfl, ?_⟩
    intro h2
    subst h2
    rfl
  · intro h1
    cases r1 with
    | unauthorized => exact absurd rfl h1
    | ok p => rfl
    | forbidden => rfl
    | conflict m => rfl
    | other => rfl

theorem request_retries_once_on_unauthorized_witness :
    (httpRequest (HttpResp.unauthorized : HttpResp Nat) HttpResp.unauthorized
      (Except.ok ())).2 = [ReqEvent.send, ReqEvent.auth, ReqEvent.send] ∧
    (httpRequest (HttpResp.unauthorized : HttpResp Nat) HttpResp.unauthorized
      (Except.ok ())).1 = Except.error BackendError.Unauthorized := by
  have h := (request_retries_once_on_unauthorized Nat HttpResp.unauthorized
    HttpResp.unauthorized (Except.ok ())).1 rfl
  exact ⟨h.1, h.2.2.2 rfl⟩

theorem fuseReadFinish_pos {st : StreamState} {need : Nat} {nb : Bool}
    {out : List Nat} {st' : StreamState}
    (h : fuseReadFinish st need nb = (Except.ok out, st')) :
    st'.pos = st.pos + out.length := by
  unfold fuseReadFinish at h
  by_cases he : st.buffer.isEmpty = true
  · rw [if_pos he] at h
    by_cases hh : st.eof = false ∧ nb = true
    · rw [if_pos hh] at h
      exact absurd (congrArg Prod.fst h) (by simp)
    · rw [if_neg hh] at h
      have hout : out = [] := by
        have h1 := congrArg Prod.fst h
        simpa using h1.symm
      have hst : st' = st := (congrArg Prod.snd h).symm
      rw [hst, hout]
      simp
  · rw [if_neg he] at h
    simp only [Prod.mk.injEq] at h
    obtain ⟨h1, h2⟩ := h
    have hout : out = st.buffer.take (min need st.buffer.length) := by
      simpa using h1.symm
    rw [← h2, hout]
    simp [List.length_take]

theorem fuseReadCore_pos {st : StreamState} {need : Nat} {nb : Bool}
    {out : List Nat} {st' : StreamState}
    (h : fuseReadCore st need nb = (Except.ok out, st')) :
    st'.pos = st.pos + out.length := by
  unfold fuseReadCore at h
  by_cases hg : nb = true ∧ st.buffer.isEmpty = true ∧ st.eof = false
  · rw [if_pos hg] at h
    exact absurd (congrArg Prod.fst h) (by simp)
  · rw [if_neg hg] at h
    split at h
    · split at h
      · exact absurd (congrArg Prod.fst h) (by simp)
      · have := fuseReadFinish_pos h
        simpa using this
    · exact fuseReadFinish_pos h

/-- C8: in `LargeStream` read mode a read at an offset different from the
    stream position fails with the seek error `ESPIPE` and leaves the handle
    state untouched; a read at the stream position that succeeds advances
    the position by exactly the number of bytes returned. -/
theorem largestream_read_seek_discipline
    (openStream : Nat → Except BackendError (List (Except BackendError (List Nat))))
    (st : StreamState) (offset need : Nat) (nonblock : Bool) :
    (offset ≠ st.pos →
      fuseReadLarge openStream st offset need nonblock =
        (Except.error FuseReadErr.espipe, st)) ∧
    (offset = st.pos → ∀ out st',
      fuseReadLarge openStream st offset need nonblock = (Except.ok out, st') →
      st'.pos = st.pos + out.length) := by
  constructor
  · intro h
    unfold fuseReadLarge
    rw [if_pos h]
  · intro h out st' hr
    unfold fuseReadLarge at hr
    rw [if_neg (by simp [h])] at hr
    split at hr
    · split at hr
      · exact absurd (congrArg Prod.fst hr) (by simp)
      · have := fuseReadCore_pos hr
        simpa using this
    · have := fuseReadCore_pos hr
      simpa using this
    · have := fuseReadCore_pos hr
      simpa using this

theorem largestream_read_seek_discipline_witness :
    fuseReadLarge osC8 stC8 3 4 false = (Except.error FuseReadErr.espipe, stC8) ∧
    (fuseReadLarge osC8 stC8b 0 2 false).2.pos = 2 := by
  constructor
  · exact (largestream_read_seek_discipline osC8 stC8 3 4 false).1 (by decide)
  · have h := (largestream_read_seek_discipline osC8 stC8b 0 2 false).2 rfl
      [1, 2] { pos := 2, buffer := [3], stream := some [], eof := false } rfl
    exact h

theorem emitRuns_cons (ino s : Nat) (d : List Nat) (rs : List (Nat × List Nat)) :
    emitRuns ino ((s, d) :: rs) = flushBufferCalls ino s d ++ emitRuns ino rs := rfl

/-- The winfsp flush walk computes exactly one backend write per maximal
    contiguous run of the spec's coalescing description. -/
theorem flushLoop_eq_emitRuns (ino : Nat) :
    ∀ (entries : List (Nat × List Nat)) (start lastOff prevLen : Nat) (acc : List Nat),
    (acc ≠ [] → start + acc.length = lastOff + prevLen) →
    flushLoop ino entries start lastOff prevLen acc =
      emitRuns ino (specRunsGo start acc entries) := by
  intro entries
  induction entries with
  | nil =>
    intro start lastOff prevLen acc hinv
    simp [flushLoop, specRunsGo, emitRuns]
  | cons p rest ih =>
    obtain ⟨off, d⟩ := p
    intro start lastOff prevLen acc hinv
    by_cases hacc : acc = []
    · subst hacc
      simp only [flushLoop, List.isEmpty_nil, if_true]
      by_cases hso : start = off
      · subst hso
        rw [specRunsGo]
        simp only [List.length_nil, Nat.add_zero, if_pos rfl, List.nil_append]
        exact ih start start d.length d (fun _ => rfl)
      · rw [specRunsGo]
        rw [if_neg (by simpa using hso), emitRuns_cons]
        simp only [flushBufferCalls, List.isEmpty_nil, if_true, List.nil_append]
        exact ih off off d.length d (fun _ => rfl)
    · have hinv' := hinv hacc
      have hne : acc.isEmpty = false := by
        cases acc with
        | nil => exact absurd rfl hacc
        | cons a t => rfl
      simp only [flushLoop, hne, Bool.false_eq_true, if_false]
      by_cases hco : start + acc.length = off
      · have hco' : lastOff + prevLen = off := by omega
        rw [if_pos hco']
        rw [specRunsGo, if_pos hco]
        refine ih start off d.length (acc ++ d) ?_
        intro _
        simp
        omega
      · have hco' : ¬ (lastOff + prevLen = off) := by omega
        rw [if_neg hco']
        rw [specRunsGo, if_neg hco, emitRuns_cons]
        congr 1
        exact ih off off d.length d (fun _ => rfl)

/-- C6 (amended): the winfsp `flush_file` drains the buffered fragments in
    ascending offset order, coalescing a fragment exactly when its offset is
    the previous fragment's offset plus length, emits one backend write per
    maximal non-empty run (`write_stream` over 100 MiB, `write_chunk`
    otherwise), and clears the map; a buffer holding three contiguous
    fragments at offsets 0, N, 2·N flushes as exactly one backend write and
    three gapped fragments at 0, 2·N, 4·N as exactly three.  (The adapters'
    `write` callbacks do not feed this buffer: winfsp writes through
    immediately, one backend call per write.) -/
theorem flush_file_coalescing (ino : Nat) (m : List (Nat × List Nat)) :
    (winfspFlushFile ino m).1 = emitRuns ino (specRuns m) ∧
    (winfspFlushFile ino m).2 = [] ∧
    (winfspFlushFile 7 [(0, [1, 1, 1, 1]), (4, [2, 2, 2, 2]), (8, [3, 3, 3, 3])]).1 =
      [WriteCall.chunk 7 0 [1, 1, 1, 1, 2, 2, 2, 2, 3, 3, 3, 3]] ∧
    (winfspFlushFile 7 [(0, [1, 1, 1, 1]), (8, [2, 2, 2, 2]), (16, [3, 3, 3, 3])]).1 =
      [WriteCall.chunk 7 0 [1, 1, 1, 1], WriteCall.chunk 7 8 [2, 2, 2, 2],
        WriteCall.chunk 7 16 [3, 3, 3, 3]] ∧
    (∀ entry data offset writeToEof now, entry.kind ≠ EntryType.Directory →
      data ≠ ([] : List Nat) →
      (winfspWrite entry data offset writeToEof (Except.ok ()) now).2.2.length = 1) := by
  refine ⟨?_, rfl, by decide, by decide, ?_⟩
  · cases m with
    | nil => rfl
    | cons p rest =>
      obtain ⟨off, d⟩ := p
      show flushLoop ino ((off, d) :: rest) 0 0 0 [] = emitRuns ino (specRunsGo off d rest)
      simp only [flushLoop, List.isEmpty_nil, if_true, List.nil_append]
      exact flushLoop_eq_emitRuns ino rest off off d.length d (fun _ => rfl)
  · intro entry data offset writeToEof now hk hd
    have hde : data.isEmpty = false := by
      cases data with
      | nil => exact absurd rfl hd
      | cons a t => rfl
    simp only [winfspWrite, hk, if_neg hk, hde]
    simp

/-- C6 counterexample: three contiguous adapter writes at offsets 0, N, 2·N
    (N = 4) each issue one immediate backend write - three backend writes in
    total, not one - and the write-buffer map stays empty, so flushing it
    emits nothing. -/
theorem flush_file_coalescing_counterexample :
    wWrite1.2.2.length = 1 ∧ wWrite2.2.2.length = 1 ∧ wWrite3.2.2.length = 1 ∧
    (wWrite1.2.2 ++ wWrite2.2.2 ++ wWrite3.2.2).length = 3 ∧
    (winfspFlushFile entW.ino []).1 = [] ∧ (3 : Nat) ≠ 1 := by decide

/-- C7 counterexample: a single winfsp adapter write with non-empty data
    issues a backend `write_chunk` immediately - the claimed "no backend
    write" buffering does not happen - while still reporting the full
    length. -/
theorem adapter_write_behavior_counterexample :
    wWrite1.2.2 = [WriteCall.chunk 7 0 [1, 1, 1, 1]] ∧
    wWrite1.2.2 ≠ [] ∧
    wWrite1.1 = some 4 := by decide

/-- C7 (amended): the winfsp `write` never touches the write-buffer map: it
    sends non-empty data to the backend immediately (`write_stream` over
    100 MiB, `write_chunk` otherwise) and reports the full length on
    success; the fuse `write` always reports the full length and appends to
    the handle's single `(buffer, last_offset)` pair when the buffer is
    empty or its contiguity test `buffer.len() = offset - last_offset`
    passes, and otherwise first flushes the old buffer to the backend (the
    incoming data is dropped and only `last_offset` records it). -/
theorem adapter_write_behavior (entry : FileEntry) (data : List Nat) (offset : Nat)
    (writeToEof : Bool) (now : Nat) (path : String) (wb : List Nat × Nat) (off : Nat) :
    (entry.kind ≠ EntryType.Directory → data ≠ [] →
      (winfspWrite entry data offset writeToEof (Except.ok ()) now).1 = some data.length ∧
      (winfspWrite entry data offset writeToEof (Except.ok ()) now).2.2 =
        [if data.length > LARGE_FILE_SIZE then
            WriteCall.stream entry.ino (if writeToEof then entry.size else offset) data
          else WriteCall.chunk entry.ino (if writeToEof then entry.size else offset) data]) ∧
    ((fuseWrite path wb off data).1 = data.length ∧
      (wb.1 = [] →
        fuseWrite path wb off data = (data.length, (data, off + data.length), [])) ∧
      (wb.1 ≠ [] → wb.1.length = off - wb.2 →
        fuseWrite path wb off data =
          (data.length, (wb.1 ++ data, off + data.length), [])) ∧
      (wb.1 ≠ [] → wb.1.length ≠ off - wb.2 →
        fuseWrite path wb off data =
          (data.length, ([], 0), fuseFlushCalls path wb.1 (off + data.length)))) := by
  constructor
  · intro hk hd
    have hde : data.isEmpty = false := by
      cases data with
      | nil => exact absurd rfl hd
      | cons a t => rfl
    simp only [winfspWrite, if_neg hk, hde]
    constructor
    · split <;> simp_all
    · split <;> simp_all
  · obtain ⟨buf, lastOff⟩ := wb
    refine ⟨?_, ?_, ?_, ?_⟩
    · simp only [fuseWrite]
      split
      · rfl
      · split
        · rfl
        · rfl
    · intro hb
      simp only at hb
      subst hb
      simp [fuseWrite]
    · intro hb hco
      simp only at hb hco
      have hbe : buf.isEmpty = false := by
        cases buf with
        | nil => exact absurd rfl hb
        | cons a t => rfl
      simp only [fuseWrite, hbe, Bool.false_eq_true, if_false, hco, if_pos rfl]
      simp
    · intro hb hco
      simp only at hb hco
      have hbe : buf.isEmpty = false := by
        cases buf with
        | nil => exact absurd rfl hb
        | cons a t => rfl
      simp only [fuseWrite, hbe, Bool.false_eq_true, if_false, if_neg hco]
      rfl

/-- Witness for the amended C7: a winfsp write of three bytes at offset 2
    and the three fuse cases on concrete buffers. -/
theorem adapter_write_behavior_witness :
    (winfspWrite entW [5, 6, 7] 2 false (Except.ok ()) 0).1 = some 3 ∧
    (winfspWrite entW [5, 6, 7] 2 false (Except.ok ()) 0).2.2 =
      [WriteCall.chunk 7 2 [5, 6, 7]] ∧
    fuseWrite "/w" ([], 0) 0 [1, 2] = (2, ([1, 2], 2), []) ∧
    fuseWrite "/w" ([1, 2], 2) 4 [3] = (1, ([1, 2, 3], 5), []) ∧
    fuseWrite "/w" ([1, 2], 2) 7 [4] =
      (1, ([], 0), [WriteCall.chunk "/w" 6 [1, 2]]) := by
  have hw := (adapter_write_behavior entW [5, 6, 7] 2 false 0 "/w" ([], 0) 0).1
    (by decide) (by decide)
  have hf1 := ((adapter_write_behavior entW [1, 2] 0 false 0 "/w" ([], 0) 0).2).2.1 rfl
  have hf2 := ((adapter_write_behavior entW [3] 0 false 0 "/w" ([1, 2], 2) 4).2).2.2.1
    (by decide) (by decide)
  have hf3 := ((adapter_write_behavior entW [4] 0 false 0 "/w" ([1, 2], 2) 7).2).2.2.2
    (by decide) (by decide)
  exact ⟨hw.1, hw.2, hf1, hf2, hf3⟩

theorem innerLookup_fetchPromote (st : CacheState) (path : String) (i : Nat) :
    innerLookup (fetchPromote st path) path i = innerLookup st path i := by
  unfold fetchPromote
  cases hg : alGet path st.blocks with
  | none => rfl
  | some p =>
    obtain ⟨fc, bp⟩ := p
    obtain ⟨hl, hbp⟩ := alGet_eq_some hg
    unfold innerLookup
    simp only
    rw [hbp]
    simp [alLookup, hl]

theorem alLookup_getD_inner (st : CacheState) (path : String) (i : Nat) :
    alLookup i ((alLookup path st.blocks).getD []) = innerLookup st path i := by
  unfold innerLookup
  cases h : alLookup path st.blocks with
  | none => simp [alLookup]
  | some fc => simp

theorem alPut_storePut {fc : List (Nat × List Nat)} {store : Nat → Option (List Nat)}
    (h : ∀ i, alLookup i fc = store i) (idx : Nat) (data : List Nat) (i : Nat) :
    alLookup i (alPut idx data fc) = storePut store idx data i := by
  by_cases hi : i = idx
  · subst hi
    rw [alLookup_put_self]
    simp [storePut]
  · rw [alLookup_put_ne hi, storePut, if_neg hi]
    exact h i

theorem innerLookup_setBlocks (st : CacheState) (path : String)
    (fc : List (Nat × List Nat)) (base : List (String × List (Nat × List Nat))) (i : Nat) :
    innerLookup { st with blocks := alPut path fc base } path i = alLookup i fc := by
  unfold innerLookup
  simp [alLookup_put_self]

theorem fetchBlockIfMissing_sim (b : Backend) (st : CacheState) (path : String)
    (idx : Nat) (store : Nat → Option (List Nat))
    (hrel : ∀ i, innerLookup st path i = store i) :
    (fetchBlockIfMissing b st path idx).2.2 = (specFetch b path store idx).2 ∧
    (∀ e, (specFetch b path store idx).1 = Except.error e →
      (fetchBlockIfMissing b st path idx).1 = Except.error e) ∧
    (∀ s', (specFetch b path store idx).1 = Except.ok s' →
      (fetchBlockIfMissing b st path idx).1 = Except.ok () ∧
      (∀ i, innerLookup (fetchBlockIfMissing b st path idx).2.1 path i = s' i) ∧
      ∃ v, s' idx = some v) := by
  have h0 : ∀ i, innerLookup (fetchPromote st path) path i = store i :=
    fun i => (innerLookup_fetchPromote st path i).trans (hrel i)
  cases hm : store idx with
  | some v =>
    have hp : (innerLookup (fetchPromote st path) path idx).isSome = true := by
      rw [h0, hm]
      rfl
    simp only [fetchBlockIfMissing, specFetch, hp, if_true, hm]
    refine ⟨trivial, fun e he => by simp at he, fun s' hs => ?_⟩
    have hs' : store = s' := by simpa using hs
    subst hs'
    exact ⟨trivial, h0, ⟨v, hm⟩⟩
  | none =>
    have hp : (innerLookup (fetchPromote st path) path idx).isSome = false := by
      rw [h0, hm]
      rfl
    simp only [fetchBlockIfMissing, specFetch, hp, Bool.false_eq_true, if_false, hm]
    cases hc : b.read_chunk path (blockStart idx) BLOCK_SIZE with
    | error e =>
      refine ⟨rfl, fun e' he => ?_, fun s' hs => by simp at hs⟩
      change Except.error e = Except.error e' at he
      have hee : e = e' := by injection he
      change (Except.error e : Except BackendError Unit) = Except.error e'
      rw [hee]
    | ok data =>
      have hfc0 : ∀ i,
          alLookup i ((alLookup path (fetchPromote st path).blocks).getD []) = store i :=
        fun i => (alLookup_getD_inner _ path i).trans (h0 i)
      have hfc1 : ∀ i,
          alLookup i (alPut idx data ((alLookup path (fetchPromote st path).blocks).getD []))
            = storePut store idx data i := alPut_storePut hfc0 idx data
      have hcondeq :
          (alLookup (idx + 1)
            (alPut idx data ((alLookup path (fetchPromote st path).blocks).getD [])) = none)
          = (storePut store idx data (idx + 1) = none) := by
        rw [hfc1 (idx + 1)]
      refine ⟨rfl, fun e' he => by simp at he, fun s' hs => ?_⟩
      by_cases hcond : data.length < BLOCK_SIZE ∧ storePut store idx data (idx + 1) = none
      · have hcondf : data.length < BLOCK_SIZE ∧
            alLookup (idx + 1)
              (alPut idx data ((alLookup path (fetchPromote st path).blocks).getD []))
              = none := by
          rw [hcondeq]
          exact hcond
        have hs' : storePut (storePut store idx data) (idx + 1) [] = s' := by
          have h1 := hs
          change Except.ok
              (if data.length < BLOCK_SIZE ∧ storePut store idx data (idx + 1) = none then
                storePut (storePut store idx data) (idx + 1) []
              else storePut store idx data) = Except.ok s' at h1
          rw [if_pos hcond] at h1
          simpa using h1
        subst hs'
        refine ⟨rfl, ?_, ?_⟩
        · intro i
          show innerLookup { fetchPromote st path with
              blocks := alPut path
                (if data.length < BLOCK_SIZE ∧
                    alLookup (idx + 1) (alPut idx data
                      ((alLookup path (fetchPromote st path).blocks).getD [])) = none then
                  alPut (idx + 1) [] (alPut idx data
                    ((alLookup path (fetchPromote st path).blocks).getD []))
                else alPut idx data ((alLookup path (fetchPromote st path).blocks).getD []))
                (fetchPromote st path).blocks } path i = _
          rw [if_pos hcondf]
          exact (innerLookup_setBlocks (fetchPromote st path) path _ _ i).trans
            (alPut_storePut hfc1 (idx + 1) [] i)
        · refine ⟨data, ?_⟩
          simp [storePut]
      · have hcondf : ¬ (data.length < BLOCK_SIZE ∧
            alLookup (idx + 1)
              (alPut idx data ((alLookup path (fetchPromote st path).blocks).getD []))
              = none) := by
          rw [hcondeq]
          exact hcond
        have hs' : storePut store idx data = s' := by
          have h1 := hs
          change Except.ok
              (if data.length < BLOCK_SIZE ∧ storePut store idx data (idx + 1) = none then
                storePut (storePut store idx data) (idx + 1) []
              else storePut store idx data) = Except.ok s' at h1
          rw [if_neg hcond] at h1
          simpa using h1
        subst hs'
        refine ⟨rfl, ?_, ?_⟩
        · intro i
          show innerLookup { fetchPromote st path with
              blocks := alPut path
                (if data.length < BLOCK_SIZE ∧
                    alLookup (idx + 1) (alPut idx data
                      ((alLookup path (fetchPromote st path).blocks).getD [])) = none then
                  alPut (idx + 1) [] (alPut idx data
                    ((alLookup path (fetchPromote st path).blocks).getD []))
                else alPut idx data ((alLookup path (fetchPromote st path).blocks).getD []))
                (fetchPromote st path).blocks } path i = _
          rw [if_neg hcondf]
          exact (innerLookup_setBlocks (fetchPromote st path) path _ _ i).trans (hfc1 i)
        · refine ⟨data, ?_⟩
          simp [storePut]

theorem readChunkLoop_sim (b : Backend) (path : String) (offset reqEnd : Nat) :
    ∀ (idxs : List Nat) (st : CacheState) (store : Nat → Option (List Nat))
      (out : List Nat) (remaining : Nat) (trace : List BCall),
    (∀ i, innerLookup st path i = store i) →
    (readChunkLoop b path offset reqEnd idxs st out remaining trace).1 =
      (specAssemble b path offset reqEnd idxs store out remaining trace).1 ∧
    (readChunkLoop b path offset reqEnd idxs st out remaining trace).2.2 =
      (specAssemble b path offset reqEnd idxs store out remaining trace).2 := by
  intro idxs
  induction idxs with
  | nil =>
    intro st store out remaining trace hrel
    exact ⟨rfl, rfl⟩
  | cons idx rest ih =>
    intro st store out remaining trace hrel
    have hf := fetchBlockIfMissing_sim b st path idx store hrel
    rcases hfet : fetchBlockIfMissing b st path idx with ⟨fr, fst', ftr⟩
    rcases hspec : specFetch b path store idx with ⟨sr, str1⟩
    rw [hfet, hspec] at hf
    dsimp only at hf
    obtain ⟨htr, herr, hok⟩ := hf
    subst htr
    simp only [readChunkLoop, hfet, specAssemble, hspec]
    cases sr with
    | error e =>
      have hfr : fr = Except.error e := herr e rfl
      subst hfr
      exact ⟨rfl, rfl⟩
    | ok s' =>
      obtain ⟨hfr, hrel', v, hv⟩ := hok s' rfl
      subst hfr
      have hvi : innerLookup fst' path idx = some v := by
        rw [hrel' idx, hv]
      cases hb : alLookup path fst'.blocks with
      | none => simp [innerLookup, hb] at hvi
      | some fc =>
        have hlk : alLookup idx fc = some v := by
          have h1 := hvi
          unfold innerLookup at h1
          rw [hb] at h1
          exact h1
        have hag : alGet path fst'.blocks =
            some (fc, (path, fc) :: alErase path fst'.blocks) := by
          unfold alGet
          rw [hb]
        have hag2 : alGet idx fc = some (v, (idx, v) :: alErase idx fc) := by
          unfold alGet
          rw [hlk]
        have hgd : (s' idx).getD [] = v := by
          rw [hv]
          rfl
        simp only [hag, hag2, hgd]
        have hrel2 : ∀ i, innerLookup
            { fst' with blocks := alPut path ((idx, v) :: alErase idx fc) ((path, fc) :: alErase path fst'.blocks) }
            path i = s' i := by
          intro i
          rw [innerLookup_setBlocks]
          by_cases hi : i = idx
          · subst hi
            simp [alLookup, hv]
          · have hii : ¬ (idx = i) := fun hh => hi hh.symm
            simp only [alLookup, hii, if_false]
            rw [alLookup_erase_ne (fun hh => hi hh)]
            rw [← hrel' i]
            unfold innerLookup
            rw [hb]
        by_cases hemp : v.isEmpty = true
        · rw [if_pos hemp, if_pos hemp]
          exact ⟨rfl, rfl⟩
        · rw [if_neg hemp, if_neg hemp]
          split
          · exact ⟨rfl, rfl⟩
          · exact ih _ s' _ _ _ hrel2

/-- C2 (amended): `Cache::read_chunk` returns the bytes and makes the
    backend calls prescribed by the reference description `specReadChunk`:
    the covering block range `[first..=last]` is computed from `offset`,
    `size` and the fixed 16 KiB block size; each index in the range reuses
    the cached block if present and otherwise fetches exactly that aligned
    whole block; a fetched short block records the following index as an
    empty vector if not already present; the returned bytes are the
    requested subrange copied from those blocks, and assembly stops early at
    the first empty block (EOF) or once the requested size is exhausted. -/
theorem read_chunk_refines_spec (b : Backend) (st : CacheState) (path : String)
    (offset size : Nat) :
    (Cache.read_chunk b st path offset size).1 =
      (specReadChunk b st path offset size).1 ∧
    (Cache.read_chunk b st path offset size).2.2 =
      (specReadChunk b st path offset size).2 := by
  by_cases hz : size = 0
  · subst hz
    exact ⟨rfl, rfl⟩
  · simp only [Cache.read_chunk, specReadChunk, hz, if_false]
    exact readChunkLoop_sim b path offset (offset + size) _ st (innerLookup st path)
      [] size [] (fun i => rfl)

/-- C2 counterexample: with block 0 cached short (10 bytes, less than the
    16 KiB block size) and block 1 cached non-empty, a read covering both
    blocks does not stop at the short block: it returns bytes from block 1
    as well, so assembly does not stop early at the first block shorter than
    the block size. -/
theorem read_chunk_short_block_counterexample :
    (Cache.read_chunk failBackend stC2 "/f" 0 16394).1 =
      Except.ok (List.replicate 10 1 ++ List.replicate 5 2) ∧
    (Cache.read_chunk failBackend stC2 "/f" 0 16394).2.2 = [] ∧
    (List.replicate 10 (1 : Nat)).length < BLOCK_SIZE ∧
    List.replicate 5 (2 : Nat) ≠ [] ∧
    (Cache.read_chunk failBackend stC2 "/f" 0 16394).1 ≠
      Except.ok (List.replicate 10 1) := by
  refine ⟨rfl, rfl, by decide, by decide, ?_⟩
  intro h
  have h2 : List.replicate 10 (1 : Nat) ++ List.replicate 5 2 = List.replicate 10 1 := by
    have h1 : (Except.ok (List.replicate 10 1 ++ List.replicate 5 2) :
        Except BackendError (List Nat)) = Except.ok (List.replicate 10 1) := by
      rw [← h]
      rfl
    injection h1
  have := congrArg List.length h2
  simp at this

theorem flush_file_coalescing_witness :
    (winfspWrite entW [9] 1 false (Except.ok ()) 0).2.2.length = 1 := by
  exact (flush_file_coalescing 0 []).2.2.2.2 entW [9] 1 false 0 (by decide) (by decide)
